import Mathlib

/-!
# Verification of the Datacollector capture-and-ingestion pipeline

Shallow embedding of the core of the Datacollector repository
(`src/rpi_hailo_python`, `src/jetson_cuda_python`, `src/src`), together with
proofs about the embedded operations:

* decimal label formatting and reparsing (`format_yolo_label`, `src/rpi_hailo_python/src/utils.py`);
* the mask → polygon geometry transform (`mask_to_polygon`, same file);
* the dataset persistence layer (`save_sample` / `log_to_db`,
  `src/rpi_hailo_python/src/dataset_writer.py`);
* the collector control loops (`DataCollector.run` of the rpi/base variants and
  `DataCollectorJetson.run`);
* the frame-differencing motion gate (`MotionDetector.detect`,
  `src/rpi_hailo_python/src/camera_manager.py`);
* the camera stream lifecycle (`CameraStream.start` / `stop`).

External collaborators (OpenCV's `findContours`, `approxPolyDP`, `contourArea`,
`arcLength`, `cvtColor`/`GaussianBlur`/`dilate`, and the inference engine) are
not part of the repository; they appear as explicit function parameters, and
theorems that depend on their documented contracts take those contracts as
hypotheses.

Machine floats are modelled as rationals; Python's `"%.6f"` formatting is
modelled as rounding half-to-even at the sixth decimal, which is the rounding
Python applies to the exact value of the double being formatted.
-/

namespace Datacollector

/-! ## Decimal rendering and parsing

Embedding of the string formatting used by `format_yolo_label`
(`src/rpi_hailo_python/src/utils.py`, lines 73–82):
`f"{class_id} " + " ".join([f"{p:.6f}" for p in poly])`.
-/

/-- The character for a single decimal digit `d < 10`. -/
def digitChar (d : ℕ) : Char := Char.ofNat (48 + d)

/-- The numeric value of a decimal digit character. -/
def digitVal (c : Char) : ℕ := c.toNat - 48

/-- Decimal rendering of a natural number, most significant digit first
(Python's `str` / `format` of a non-negative integer). -/
def renderNat (n : ℕ) : List Char :=
  if n = 0 then ['0'] else ((Nat.digits 10 n).map digitChar).reverse

/-- Accumulate the value of a most-significant-first digit string. -/
def parseNatDigits (cs : List Char) : ℕ :=
  cs.foldl (fun a c => 10 * a + digitVal c) 0

/-- Parse a non-empty all-digit character list as a natural number. -/
def parseNat (cs : List Char) : Option ℕ :=
  if cs ≠ [] ∧ cs.all Char.isDigit = true then some (parseNatDigits cs) else none

theorem digitVal_digitChar {d : ℕ} (hd : d < 10) : digitVal (digitChar d) = d := by
  interval_cases d <;> decide

theorem isDigit_digitChar {d : ℕ} (hd : d < 10) : (digitChar d).isDigit = true := by
  interval_cases d <;> decide

theorem ne_space_of_isDigit {c : Char} (h : c.isDigit = true) : c ≠ ' ' := by
  intro hc; subst hc; simp at h

theorem ne_dot_of_isDigit {c : Char} (h : c.isDigit = true) : c ≠ '.' := by
  intro hc; subst hc; simp at h

theorem ne_dash_of_isDigit {c : Char} (h : c.isDigit = true) : c ≠ '-' := by
  intro hc; subst hc; simp at h

theorem foldl_map_digitChar (M : List ℕ) (hM : ∀ d ∈ M, d < 10) (a : ℕ) :
    (M.map digitChar).foldl (fun x c => 10 * x + digitVal c) a =
      M.foldl (fun x d => 10 * x + d) a := by
  rw [List.foldl_map]
  exact List.foldl_ext _ _ a (fun x d hd => by rw [digitVal_digitChar (hM d hd)])

theorem foldl_reverse_eq_ofDigits (L : List ℕ) :
    L.reverse.foldl (fun x d => 10 * x + d) 0 = Nat.ofDigits 10 L := by
  induction L with
  | nil => simp [Nat.ofDigits]
  | cons d L ih =>
    rw [List.reverse_cons, List.foldl_append, ih, Nat.ofDigits_cons]
    simp
    ring

theorem renderNat_ne_nil (n : ℕ) : renderNat n ≠ [] := by
  unfold renderNat
  split
  · simp
  · simp only [ne_eq, List.reverse_eq_nil_iff, List.map_eq_nil_iff]
    exact Nat.digits_ne_nil_iff_ne_zero.mpr (by assumption)

theorem mem_renderNat_isDigit {n : ℕ} {c : Char} (hc : c ∈ renderNat n) :
    c.isDigit = true := by
  unfold renderNat at hc
  split at hc
  · rw [List.mem_singleton] at hc
    subst hc
    decide
  · rw [List.mem_reverse, List.mem_map] at hc
    obtain ⟨d, hd, rfl⟩ := hc
    exact isDigit_digitChar (Nat.digits_lt_base (by norm_num) hd)

theorem parseNat_renderNat (n : ℕ) : parseNat (renderNat n) = some n := by
  by_cases hn : n = 0
  · subst hn; decide
  · unfold parseNat
    rw [if_pos]
    · congr 1
      unfold parseNatDigits renderNat
      rw [if_neg hn, ← List.map_reverse,
        foldl_map_digitChar _ (fun d hd => Nat.digits_lt_base (by norm_num)
          (List.mem_reverse.mp hd)),
        foldl_reverse_eq_ofDigits, Nat.ofDigits_digits]
    · refine ⟨renderNat_ne_nil n, ?_⟩
      rw [List.all_eq_true]
      exact fun c hc => mem_renderNat_isDigit hc

theorem renderNat_length_le {n k : ℕ} (hk : 1 ≤ k) (h : n < 10 ^ k) :
    (renderNat n).length ≤ k := by
  unfold renderNat
  split
  · simpa using hk
  · rw [List.length_reverse, List.length_map]
    by_contra hlen
    push_neg at hlen
    have h1 : 10 ^ (Nat.digits 10 n).length ≤ 10 * n :=
      Nat.base_pow_length_digits_le 10 n (by norm_num) (by assumption)
    have h2 : 10 ^ (k + 1) ≤ 10 ^ (Nat.digits 10 n).length :=
      Nat.pow_le_pow_right (by norm_num) hlen
    have h3 : 10 * n < 10 * 10 ^ k := by omega
    rw [pow_succ] at h2
    omega

/-- Decimal rendering of an integer (Python `f"{class_id}"`). -/
def renderInt (z : ℤ) : List Char :=
  if z < 0 then '-' :: renderNat z.natAbs else renderNat z.natAbs

/-- Parse an optionally-signed decimal integer. -/
def parseInt (cs : List Char) : Option ℤ :=
  if cs.head? = some '-' then (parseNat cs.tail).map (fun n => -(n : ℤ))
  else (parseNat cs).map (fun n => (n : ℤ))

theorem mem_renderInt {z : ℤ} {c : Char} (hc : c ∈ renderInt z) :
    c = '-' ∨ c.isDigit = true := by
  unfold renderInt at hc
  split at hc
  · rcases List.mem_cons.mp hc with h | h
    · exact Or.inl h
    · exact Or.inr (mem_renderNat_isDigit h)
  · exact Or.inr (mem_renderNat_isDigit hc)

theorem parseInt_renderInt (z : ℤ) : parseInt (renderInt z) = some z := by
  unfold parseInt renderInt
  split
  · rw [if_pos (by simp)]
    rw [List.tail_cons, parseNat_renderNat]
    show some (-(z.natAbs : ℤ)) = some z
    congr 1
    omega
  · have hh : ¬ (renderNat z.natAbs).head? = some '-' := by
      obtain ⟨c, cs, hc⟩ := List.exists_cons_of_ne_nil (renderNat_ne_nil z.natAbs)
      rw [hc]
      simp only [List.head?_cons, Option.some.injEq]
      exact ne_dash_of_isDigit (mem_renderNat_isDigit (hc ▸ List.mem_cons_self c cs))
    rw [if_neg hh, parseNat_renderNat]
    show some ((z.natAbs : ℤ)) = some z
    congr 1
    omega

/-! ### Rounding half to even

Python's `f"{p:.6f}"` rounds the exact value of the double `p` to six decimal
places, ties to even. -/

/-- Round a rational to the nearest integer, ties to even. -/
def rhe (x : ℚ) : ℤ :=
  if x - ⌊x⌋ < 1/2 then ⌊x⌋
  else if 1/2 < x - ⌊x⌋ then ⌊x⌋ + 1
  else if ⌊x⌋ % 2 = 0 then ⌊x⌋ else ⌊x⌋ + 1

theorem abs_rhe_sub_le (x : ℚ) : |(rhe x : ℚ) - x| ≤ 1/2 := by
  have h1 : (⌊x⌋ : ℚ) ≤ x := Int.floor_le x
  have h2 : x < ⌊x⌋ + 1 := Int.lt_floor_add_one x
  unfold rhe
  split_ifs with ha hb hc <;> rw [abs_le] <;> push_cast <;> constructor <;> linarith

theorem rhe_nonneg {x : ℚ} (hx : 0 ≤ x) : 0 ≤ rhe x := by
  have h0 : (0 : ℤ) ≤ ⌊x⌋ := Int.floor_nonneg.mpr hx
  unfold rhe
  split_ifs <;> omega

theorem rhe_nonpos {x : ℚ} (hx : x < 0) : rhe x ≤ 0 := by
  have h0 : ⌊x⌋ < 0 := Int.floor_lt.mpr (by exact_mod_cast hx)
  unfold rhe
  split_ifs <;> omega

/-! ### Fixed-point formatting with six decimal places -/

/-- Left-pad a digit string with zeros to six characters
(the fractional part of `"%.6f"` always has six digits). -/
def pad6 (ds : List Char) : List Char :=
  List.replicate (6 - ds.length) '0' ++ ds

/-- Embedding of Python's `f"{p:.6f}"` on the exact value of `p`: an optional
minus sign, the integer part, a dot, and exactly six fractional digits. -/
def fmt6 (q : ℚ) : List Char :=
  (if q < 0 then ['-'] else []) ++
    renderNat ((rhe (q * 1000000)).natAbs / 1000000) ++
    '.' :: pad6 (renderNat ((rhe (q * 1000000)).natAbs % 1000000))

/-- The rational actually denoted by the six-decimal rendering of `q`. -/
def round6 (q : ℚ) : ℚ := (rhe (q * 1000000) : ℚ) / 1000000

/-- Parse `"<intpart>.<fracpart>"` as a non-negative rational. -/
def parseBody (cs : List Char) : Option ℚ :=
  if (cs.dropWhile (fun c => c != '.')).head? = some '.' then
    (parseNat (cs.takeWhile (fun c => c != '.'))).bind (fun a =>
      (parseNat ((cs.dropWhile (fun c => c != '.')).tail)).map (fun b =>
        (a : ℚ) + (b : ℚ) / 10 ^ ((cs.dropWhile (fun c => c != '.')).tail).length))
  else none

/-- Parse a decimal fixed-point literal with an optional leading minus sign. -/
def parseFixed (cs : List Char) : Option ℚ :=
  if cs.head? = some '-' then (parseBody cs.tail).map (fun v => -v) else parseBody cs

theorem mem_fmt6 {q : ℚ} {c : Char} (hc : c ∈ fmt6 q) :
    c = '-' ∨ c = '.' ∨ c.isDigit = true := by
  unfold fmt6 at hc
  simp only [List.mem_append, List.mem_cons] at hc
  rcases hc with (h | h) | h | h
  · split at h
    · rw [List.mem_singleton] at h
      exact Or.inl h
    · simp at h
  · exact Or.inr (Or.inr (mem_renderNat_isDigit h))
  · exact Or.inr (Or.inl h)
  · unfold pad6 at h
    rcases List.mem_append.mp h with h | h
    · rw [List.eq_of_mem_replicate h]
      right; right; decide
    · exact Or.inr (Or.inr (mem_renderNat_isDigit h))

theorem parseNatDigits_renderNat (n : ℕ) : parseNatDigits (renderNat n) = n := by
  have h := parseNat_renderNat n
  unfold parseNat at h
  rw [if_pos ⟨renderNat_ne_nil n, by
    rw [List.all_eq_true]; exact fun c hc => mem_renderNat_isDigit hc⟩] at h
  exact Option.some.inj h

theorem parseNatDigits_replicate_zero (k : ℕ) (ds : List Char) :
    parseNatDigits (List.replicate k '0' ++ ds) = parseNatDigits ds := by
  induction k with
  | zero => rfl
  | succ k ih =>
    unfold parseNatDigits at *
    rw [List.replicate_succ, List.cons_append, List.foldl_cons]
    simpa [digitVal] using ih

theorem pad6_length {ds : List Char} (h : ds.length ≤ 6) : (pad6 ds).length = 6 := by
  unfold pad6
  rw [List.length_append, List.length_replicate]
  omega

theorem parseNat_pad6_renderNat {b : ℕ} (hb : b < 1000000) :
    parseNat (pad6 (renderNat b)) = some b := by
  unfold parseNat
  rw [if_pos]
  · congr 1
    unfold pad6
    rw [parseNatDigits_replicate_zero, parseNatDigits_renderNat]
  · constructor
    · unfold pad6
      simp [renderNat_ne_nil b]
    · rw [List.all_eq_true]
      intro c hc
      unfold pad6 at hc
      rcases List.mem_append.mp hc with h | h
      · rw [List.eq_of_mem_replicate h]; decide
      · exact mem_renderNat_isDigit h

theorem takeWhile_append_dot (l₁ l₂ : List Char) (h : ∀ c ∈ l₁, c ≠ '.') :
    (l₁ ++ '.' :: l₂).takeWhile (fun c => c != '.') = l₁ := by
  induction l₁ with
  | nil => simp [List.takeWhile]
  | cons c l₁ ih =>
    rw [List.cons_append, List.takeWhile_cons]
    rw [if_pos (by simpa using h c (List.mem_cons_self c l₁))]
    rw [ih (fun c hc => h c (List.mem_cons_of_mem _ hc))]

theorem dropWhile_append_dot (l₁ l₂ : List Char) (h : ∀ c ∈ l₁, c ≠ '.') :
    (l₁ ++ '.' :: l₂).dropWhile (fun c => c != '.') = '.' :: l₂ := by
  induction l₁ with
  | nil => simp [List.dropWhile]
  | cons c l₁ ih =>
    rw [List.cons_append, List.dropWhile_cons]
    rw [if_pos (by simpa using h c (List.mem_cons_self c l₁))]
    exact ih (fun c hc => h c (List.mem_cons_of_mem _ hc))

theorem nat_split_q (m : ℕ) :
    (((m / 1000000 : ℕ) : ℚ)) + (((m % 1000000 : ℕ) : ℚ)) / 10 ^ (6 : ℕ) =
      (m : ℚ) / 1000000 := by
  have hm : m / 1000000 * 1000000 + m % 1000000 = m := by omega
  have h10 : ((10 : ℚ) ^ (6 : ℕ)) = 1000000 := by norm_num
  rw [h10]
  field_simp
  exact_mod_cast hm

theorem parseBody_intfrac (a b : ℕ) (hb : b < 1000000) :
    parseBody (renderNat a ++ '.' :: pad6 (renderNat b)) =
      some ((a : ℚ) + (b : ℚ) / 10 ^ (6 : ℕ)) := by
  have hdigits : ∀ c ∈ renderNat a, c ≠ '.' :=
    fun c hc => ne_dot_of_isDigit (mem_renderNat_isDigit hc)
  unfold parseBody
  rw [dropWhile_append_dot _ _ hdigits, takeWhile_append_dot _ _ hdigits]
  rw [List.head?_cons, if_pos rfl, List.tail_cons, parseNat_renderNat,
    parseNat_pad6_renderNat hb, pad6_length (renderNat_length_le (by norm_num) hb)]
  simp

theorem parseFixed_fmt6 (q : ℚ) : parseFixed (fmt6 q) = some (round6 q) := by
  have hb : (rhe (q * 1000000)).natAbs % 1000000 < 1000000 := Nat.mod_lt _ (by norm_num)
  have hcore := parseBody_intfrac ((rhe (q * 1000000)).natAbs / 1000000)
    ((rhe (q * 1000000)).natAbs % 1000000) hb
  rw [nat_split_q] at hcore
  by_cases hq : q < 0
  · have hneg : rhe (q * 1000000) ≤ 0 := rhe_nonpos (by nlinarith)
    have hcs : fmt6 q = '-' :: (renderNat ((rhe (q * 1000000)).natAbs / 1000000) ++
        '.' :: pad6 (renderNat ((rhe (q * 1000000)).natAbs % 1000000))) := by
      unfold fmt6
      rw [if_pos hq]
      simp
    rw [hcs]
    unfold parseFixed
    rw [List.head?_cons, if_pos rfl, List.tail_cons, hcore]
    unfold round6
    simp only [Option.map_some']
    congr 1
    have habs : ((rhe (q * 1000000)).natAbs : ℚ) = -((rhe (q * 1000000) : ℤ) : ℚ) := by
      push_cast [Int.cast_natAbs]
      rw [abs_of_nonpos (by exact_mod_cast hneg)]
    rw [habs]
    ring
  · have hpos : 0 ≤ rhe (q * 1000000) := rhe_nonneg (by push_neg at hq; nlinarith)
    have hcs : fmt6 q = renderNat ((rhe (q * 1000000)).natAbs / 1000000) ++
        '.' :: pad6 (renderNat ((rhe (q * 1000000)).natAbs % 1000000)) := by
      unfold fmt6
      rw [if_neg hq, List.nil_append]
    obtain ⟨c, cs, hc⟩ := List.exists_cons_of_ne_nil
      (renderNat_ne_nil ((rhe (q * 1000000)).natAbs / 1000000))
    have hcdig : c.isDigit = true :=
      mem_renderNat_isDigit (hc ▸ List.mem_cons_self c cs)
    have hhead : ¬ (fmt6 q).head? = some '-' := by
      rw [hcs, hc, List.cons_append, List.head?_cons]
      simpa using ne_dash_of_isDigit hcdig
    unfold parseFixed
    rw [if_neg hhead, hcs, hcore]
    unfold round6
    congr 1
    have habs : ((rhe (q * 1000000)).natAbs : ℚ) = ((rhe (q * 1000000) : ℤ) : ℚ) := by
      push_cast [Int.cast_natAbs]
      rw [abs_of_nonneg (by exact_mod_cast hpos)]
    rw [habs]

theorem abs_round6_sub_le (q : ℚ) : |round6 q - q| ≤ 1/1000000 := by
  have h := abs_rhe_sub_le (q * 1000000)
  unfold round6
  rw [abs_le] at *
  constructor <;> [linarith [h.1]; linarith [h.2]]

/-! ## Label lines

Embedding of `format_yolo_label` (`src/rpi_hailo_python/src/utils.py`,
lines 73–82): `line = f"{class_id} " + " ".join([f"{p:.6f}" for p in poly])`,
one line per polygon. -/

/-- `" ".join(toks)`. -/
def joinSp : List (List Char) → List Char
  | [] => []
  | [t] => t
  | t :: t' :: ts => t ++ ' ' :: joinSp (t' :: ts)

/-- Split a character list at each space (inverse of `joinSp` on space-free
tokens); the result is always non-empty. -/
def splitSp : List Char → List (List Char)
  | [] => [[]]
  | c :: rest =>
    if c = ' ' then [] :: splitSp rest
    else (c :: (splitSp rest).headD []) :: (splitSp rest).tail

/-- `format_yolo_label(class_id, polygons)`: one label line per polygon,
`"<classId> x1 y1 x2 y2 …"`, each coordinate with six decimal places.
A polygon is the flattened coordinate list produced by `mask_to_polygon`. -/
def format_yolo_label (class_id : ℤ) (polygons : List (List ℚ)) : List String :=
  polygons.map (fun poly => String.mk (renderInt class_id ++ ' ' :: joinSp (poly.map fmt6)))

/-- Parse each whitespace token as a fixed-point coordinate. -/
def parseCoords : List (List Char) → Option (List ℚ)
  | [] => some []
  | t :: ts => (parseFixed t).bind (fun v => (parseCoords ts).map (fun vs => v :: vs))

/-- Reparse a label line: the first token is the class id, the rest are
fixed-point coordinates. -/
def parseLine (s : String) : Option (ℤ × List ℚ) :=
  match splitSp s.data with
  | [] => none
  | tok :: toks =>
    (parseInt tok).bind (fun cid => (parseCoords toks).map (fun cs => (cid, cs)))

theorem splitSp_ne_nil (cs : List Char) : splitSp cs ≠ [] := by
  induction cs with
  | nil => simp [splitSp]
  | cons c rest ih =>
    simp only [splitSp]
    split <;> simp

theorem splitSp_no_space (t : List Char) (h : ∀ c ∈ t, c ≠ ' ') :
    splitSp t = [t] := by
  induction t with
  | nil => rfl
  | cons c rest ih =>
    simp only [splitSp]
    rw [if_neg (h c (List.mem_cons_self c rest))]
    rw [ih (fun c hc => h c (List.mem_cons_of_mem _ hc))]
    rfl

theorem splitSp_append_space (t rest : List Char) (h : ∀ c ∈ t, c ≠ ' ') :
    splitSp (t ++ ' ' :: rest) = t :: splitSp rest := by
  induction t with
  | nil =>
    rw [List.nil_append]
    simp [splitSp]
  | cons c t ih =>
    rw [List.cons_append]
    simp only [splitSp]
    rw [if_neg (h c (List.mem_cons_self c t))]
    rw [ih (fun c hc => h c (List.mem_cons_of_mem _ hc))]
    simp

theorem splitSp_joinSp (toks : List (List Char)) (hne : toks ≠ [])
    (h : ∀ t ∈ toks, ∀ c ∈ t, c ≠ ' ') :
    splitSp (joinSp toks) = toks := by
  induction toks with
  | nil => exact absurd rfl hne
  | cons t toks ih =>
    match toks with
    | [] =>
      show splitSp (joinSp [t]) = [t]
      exact splitSp_no_space t (h t (List.mem_cons_self t []))
    | t' :: ts =>
      show splitSp (t ++ ' ' :: joinSp (t' :: ts)) = t :: (t' :: ts)
      rw [splitSp_append_space t _ (h t (List.mem_cons_self t _))]
      rw [ih (by simp) (fun u hu => h u (List.mem_cons_of_mem _ hu))]

theorem parseCoords_map_fmt6 (poly : List ℚ) :
    parseCoords (poly.map fmt6) = some (poly.map round6) := by
  induction poly with
  | nil => rfl
  | cons q poly ih =>
    rw [List.map_cons, List.map_cons]
    unfold parseCoords
    rw [parseFixed_fmt6, ih]
    rfl

theorem mem_fmt6_ne_space {q : ℚ} {c : Char} (hc : c ∈ fmt6 q) : c ≠ ' ' := by
  rcases mem_fmt6 hc with h | h | h
  · subst h; decide
  · subst h; decide
  · exact ne_space_of_isDigit h

theorem mem_renderInt_ne_space {z : ℤ} {c : Char} (hc : c ∈ renderInt z) : c ≠ ' ' := by
  rcases mem_renderInt hc with h | h
  · subst h; decide
  · exact ne_space_of_isDigit h

/-- Reparsing one formatted label line recovers the class id exactly and each
coordinate as its six-decimal rounding. -/
theorem parseLine_format (cid : ℤ) (poly : List ℚ) (hne : poly ≠ []) :
    parseLine (String.mk (renderInt cid ++ ' ' :: joinSp (poly.map fmt6))) =
      some (cid, poly.map round6) := by
  unfold parseLine
  show (match splitSp (renderInt cid ++ ' ' :: joinSp (poly.map fmt6)) with
    | [] => none
    | tok :: toks =>
      (parseInt tok).bind (fun cid => (parseCoords toks).map (fun cs => (cid, cs)))) = _
  have hsplit : splitSp (renderInt cid ++ ' ' :: joinSp (poly.map fmt6)) =
      renderInt cid :: poly.map fmt6 := by
    rw [splitSp_append_space _ _ (fun c hc => mem_renderInt_ne_space hc)]
    congr 1
    apply splitSp_joinSp
    · simpa using hne
    · intro t ht c hc
      rw [List.mem_map] at ht
      obtain ⟨q, _, rfl⟩ := ht
      exact mem_fmt6_ne_space hc
  rw [hsplit]
  simp [parseInt_renderInt, parseCoords_map_fmt6]

/-- C3: every line produced by `format_yolo_label` has the form
`"<classId> x1 y1 … xn yn"` with each coordinate fixed to six decimal places
(the six-decimal rounding `round6` of its value), one line per polygon
(`Forall₂` ties each line to its polygon, so the counts agree), and reparsing a
line recovers the class id exactly and every coordinate within `1e-6` of its
input value. -/
theorem claim_C3_format_label_roundtrip (cid : ℤ) (polys : List (List ℚ))
    (hne : ∀ p ∈ polys, p ≠ []) :
    (format_yolo_label cid polys).length = polys.length ∧
    List.Forall₂ (fun line p => parseLine line = some (cid, p.map round6))
      (format_yolo_label cid polys) polys ∧
    ∀ x : ℚ, |round6 x - x| ≤ 1/1000000 := by
  refine ⟨by simp [format_yolo_label], ?_, abs_round6_sub_le⟩
  unfold format_yolo_label
  induction polys with
  | nil => exact List.Forall₂.nil
  | cons p polys ih =>
    rw [List.map_cons]
    exact List.Forall₂.cons (parseLine_format cid p (hne p (List.mem_cons_self p polys)))
      (ih (fun u hu => hne u (List.mem_cons_of_mem _ hu)))

/-- Witness for C3 at class id 3 and the single polygon `[1/2, 1/4]`. -/
theorem claim_C3_format_label_roundtrip_witness :
    (∀ p ∈ [[(1:ℚ)/2, 1/4]], p ≠ []) ∧
    ((format_yolo_label 3 [[(1:ℚ)/2, 1/4]]).length = 1 ∧
      List.Forall₂ (fun line p => parseLine line = some ((3:ℤ), p.map round6))
        (format_yolo_label 3 [[(1:ℚ)/2, 1/4]]) [[(1:ℚ)/2, 1/4]] ∧
      ∀ x : ℚ, |round6 x - x| ≤ 1/1000000) :=
  ⟨by decide, claim_C3_format_label_roundtrip 3 [[(1:ℚ)/2, 1/4]] (by decide)⟩

/-! ## Geometry codec

Embedding of `mask_to_polygon` (`src/rpi_hailo_python/src/utils.py`, lines
27–56). OpenCV's `findContours`, `contourArea`, `arcLength` and `approxPolyDP`
are external library calls; they are passed as function parameters, and the
theorems assume their documented contracts (contour points lie on mask pixels;
Douglas–Peucker returns a subset of the input vertices). -/

/-- A binary mask, `mask.shape == (h, w)` with `h = mask.length` rows. -/
abbrev Mask := List (List Bool)

/-- A contour: integer pixel coordinates `(x, y)` as produced by OpenCV. -/
abbrev Contour := List (ℕ × ℕ)

/-- `mask_to_polygon(mask, epsilon_factor)`: keep the external contours with
area at least 10, simplify each with `approxPolyDP`, flatten to
`[x1, y1, x2, y2, …]` and normalize x by the mask width and y by the height. -/
def mask_to_polygon (findContours : Mask → List Contour) (contourArea : Contour → ℚ)
    (arcLength : Contour → ℚ) (approxPolyDP : Contour → ℚ → Contour)
    (mask : Mask) (epsilon_factor : ℚ := 1/1000) : List (List ℚ) :=
  ((findContours mask).filter (fun contour => ¬ contourArea contour < 10)).map
    (fun contour =>
      ((approxPolyDP contour (epsilon_factor * arcLength contour)).flatMap
        (fun p => [(p.1 : ℚ) / ((mask.headD []).length : ℚ),
                   (p.2 : ℚ) / (mask.length : ℚ)])))

/-- C4: assuming OpenCV's contracts — every contour point returned by
`findContours` lies inside the mask (`x < width`, `y < height`) and
`approxPolyDP` returns a subset of its input vertices — every coordinate
produced by `mask_to_polygon` lies in `[0, 1]`; and whenever `findContours`
returns no contours (as it does for an all-zero mask) the result is the empty
sequence. -/
theorem claim_C4_mask_to_polygon_bounds (findContours : Mask → List Contour)
    (contourArea : Contour → ℚ) (arcLength : Contour → ℚ)
    (approxPolyDP : Contour → ℚ → Contour) (mask : Mask) (epsilon_factor : ℚ)
    (hpts : ∀ c ∈ findContours mask, ∀ p ∈ c,
      p.1 < (mask.headD []).length ∧ p.2 < mask.length)
    (hsub : ∀ c eps, ∀ p ∈ approxPolyDP c eps, p ∈ c) :
    (∀ poly ∈ mask_to_polygon findContours contourArea arcLength approxPolyDP
        mask epsilon_factor, ∀ x ∈ poly, 0 ≤ x ∧ x ≤ 1) ∧
    (findContours mask = [] →
      mask_to_polygon findContours contourArea arcLength approxPolyDP
        mask epsilon_factor = []) := by
  constructor
  · intro poly hpoly x hx
    unfold mask_to_polygon at hpoly
    rw [List.mem_map] at hpoly
    obtain ⟨contour, hcont, rfl⟩ := hpoly
    have hcont' : contour ∈ findContours mask := List.mem_of_mem_filter hcont
    rw [List.mem_flatMap] at hx
    obtain ⟨p, hp, hx⟩ := hx
    have hpm : p ∈ contour := hsub _ _ _ hp
    obtain ⟨hx1, hy1⟩ := hpts contour hcont' p hpm
    have hbound : ∀ (a b : ℕ), a < b → 0 ≤ (a : ℚ) / (b : ℚ) ∧ (a : ℚ) / (b : ℚ) ≤ 1 := by
      intro a b hab
      have hb : (0 : ℚ) < (b : ℚ) := by exact_mod_cast Nat.pos_of_ne_zero (by omega)
      constructor
      · positivity
      · rw [div_le_one hb]
        exact_mod_cast hab.le
    rcases List.mem_cons.mp hx with h | h
    · exact h ▸ hbound _ _ hx1
    · rw [List.mem_singleton] at h
      exact h ▸ hbound _ _ hy1
  · intro hempty
    unfold mask_to_polygon
    rw [hempty]
    rfl

/-- Witness for C4: a 2×2 all-true mask with a concrete contour function
returning one triangle, identity `approxPolyDP`, area 12 and perimeter 4. -/
theorem claim_C4_mask_to_polygon_bounds_witness :
    (∀ poly ∈ mask_to_polygon (fun _ => [[(0, 0), (1, 1), (0, 1)]]) (fun _ => 12)
        (fun _ => 4) (fun c _ => c) [[true, true], [true, true]] (1/1000),
      ∀ x ∈ poly, 0 ≤ x ∧ x ≤ 1) ∧
    ((fun _ : Mask => [[((0:ℕ), (0:ℕ)), (1, 1), (0, 1)]]) [[true, true], [true, true]] = [] →
      mask_to_polygon (fun _ => [[(0, 0), (1, 1), (0, 1)]]) (fun _ => 12)
        (fun _ => 4) (fun c _ => c) [[true, true], [true, true]] (1/1000) = []) :=
  claim_C4_mask_to_polygon_bounds _ _ _ _ _ _
    (by decide) (fun c eps p hp => hp)

/-! ## Dataset store

Embedding of `DatasetWriter.save_sample` and `DatasetWriter.log_to_db`
(`src/rpi_hailo_python/src/dataset_writer.py`, lines 57–107). Filesystem and
database effects are modelled by an explicit store state; the outcomes of the
external writes (`cv2.imwrite`'s boolean status, whether the label-file `open`
/`write` raises, whether the sqlite insert raises) are inputs in a
`WriteOracle`, as are `time.time()`, the uuid suffix and `random.random()`. -/

/-- Storage configuration (the `storage` section of the config). -/
structure StorageConfig where
  base_path : String
  images_dir : String
  labels_dir : String
  train_split : ℚ
  save_empty : Bool
deriving DecidableEq

/-- Outcomes of the external effects consumed by one `save_sample` call. -/
structure WriteOracle where
  timestamp : ℚ
  uuid8 : String
  rand : ℚ
  imgWriteOk : Bool
  lblWriteOk : Bool
  dbOk : Bool
deriving DecidableEq

/-- A row of the `frames` catalog table (`classes` is kept as the list that
`str(classes_detected)` serializes). -/
structure FrameRow where
  id : String
  camera_id : String
  timestamp : ℚ
  split : String
  image_path : String
  label_path : String
  objects_count : ℕ
  classes : List String
deriving DecidableEq

/-- Filesystem plus catalog state of the dataset store. -/
structure StoreState (Frame : Type) where
  images : List (String × Frame)
  labels : List (String × String)
  rows : List FrameRow

/-- How a `save_sample` call terminates: the empty-annotations no-op, normal
completion, or an uncaught exception (from the label-file write). -/
inductive SaveOutcome where
  | skipped
  | completed
  | raised
deriving DecidableEq

/-- `os.path.join` for the paths built by `save_sample`. -/
def pathJoin (a b : String) : String := a ++ "/" ++ b

/-- Python `int()` applied to a rational: truncation toward zero. -/
def pyInt (q : ℚ) : ℤ := if 0 ≤ q then ⌊q⌋ else ⌈q⌉

/-- `DatasetWriter.save_sample(frame, camera_id, annotations, classes_detected)`.
The catalog insert (`log_to_db`) swallows its own failures, the image write's
boolean status is discarded, and a failing label write raises out of the call. -/
def save_sample {Frame : Type} (cfg : StorageConfig) (st : StoreState Frame)
    (o : WriteOracle) (frame : Frame) (camera_id : String)
    (annotations : List String) (classes_detected : List String) :
    StoreState Frame × SaveOutcome :=
  if annotations = [] ∧ cfg.save_empty = false then (st, .skipped)
  else
    let frame_id := camera_id ++ "_" ++ toString (pyInt (o.timestamp * 1000)) ++ "_" ++ o.uuid8
    let split := if o.rand < cfg.train_split then "train" else "val"
    let img_rel_path := pathJoin (pathJoin cfg.images_dir split) (frame_id ++ ".jpg")
    let lbl_rel_path := pathJoin (pathJoin cfg.labels_dir split) (frame_id ++ ".txt")
    let images' := if o.imgWriteOk then
        st.images ++ [(pathJoin cfg.base_path img_rel_path, frame)] else st.images
    if o.lblWriteOk = false then
      ({ st with images := images' }, .raised)
    else
      let labels' := st.labels ++
        [(pathJoin cfg.base_path lbl_rel_path, String.intercalate "\n" annotations)]
      let rows' := if o.dbOk then st.rows ++ [{
          id := frame_id
          camera_id := camera_id
          timestamp := o.timestamp
          split := split
          image_path := img_rel_path
          label_path := lbl_rel_path
          objects_count := annotations.length
          classes := classes_detected }] else st.rows
      ({ images := images', labels := labels', rows := rows' }, .completed)

/-! ## Per-frame detection processing

Embedding of the inner detection loop of `DataCollector.run`
(`src/rpi_hailo_python/src/main.py`, lines 98–118; identical in
`src/src/main.py`, lines 71–88): confidence filter, class-name resolution,
target-class filter, mask→polygon, label formatting and aggregation. -/

/-- One detection from the inference engine. -/
structure Detection where
  mask : Mask
  cls_id : ℕ
  score : ℚ

/-- The rpi/base class-name expression (`src/rpi_hailo_python/src/main.py`,
line 104): `self.class_names[cls_id] if cls_id < len(self.class_names) else
str(cls_id)` over an ordered list. -/
def rpi_class_name (class_names : List String) (cls_id : ℕ) : String :=
  if h : cls_id < class_names.length then class_names.get ⟨cls_id, h⟩
  else toString cls_id

/-- The detection loop body: returns `(yolo_annotations, classes_detected)`. -/
def processDetections (min_confidence : ℚ) (class_names target_classes : List String)
    (m2p : Mask → List (List ℚ)) : List Detection → List String × List String
  | [] => ([], [])
  | det :: rest =>
    let tail := processDetections min_confidence class_names target_classes m2p rest
    if det.score < min_confidence then tail
    else if target_classes ≠ [] ∧ rpi_class_name class_names det.cls_id ∉ target_classes
      then tail
    else if m2p det.mask = [] then tail
    else (format_yolo_label (det.cls_id : ℤ) (m2p det.mask) ++ tail.1,
          rpi_class_name class_names det.cls_id :: tail.2)

/-- Whether a detection passes the confidence and target-class filters. -/
def passesFilters (min_confidence : ℚ) (class_names target_classes : List String)
    (det : Detection) : Bool :=
  !decide (det.score < min_confidence) &&
    !decide (target_classes ≠ [] ∧ rpi_class_name class_names det.cls_id ∉ target_classes)

theorem format_yolo_label_length (cid : ℤ) (polys : List (List ℚ)) :
    (format_yolo_label cid polys).length = polys.length := by
  simp [format_yolo_label]

/-- The number of aggregated label lines is the total number of polygons over
the detections passing the confidence and class filters. -/
theorem processDetections_length (min_confidence : ℚ)
    (class_names target_classes : List String) (m2p : Mask → List (List ℚ))
    (dets : List Detection) :
    (processDetections min_confidence class_names target_classes m2p dets).1.length =
      (((dets.filter (passesFilters min_confidence class_names target_classes)).map
        (fun d => (m2p d.mask).length)).sum) := by
  induction dets with
  | nil => rfl
  | cons det rest ih =>
    unfold processDetections
    rw [List.filter_cons]
    by_cases hs : det.score < min_confidence
    · rw [if_pos hs]
      have : passesFilters min_confidence class_names target_classes det = false := by
        simp [passesFilters, hs]
      rw [this]
      simpa using ih
    · rw [if_neg hs]
      by_cases ht : target_classes ≠ [] ∧
          rpi_class_name class_names det.cls_id ∉ target_classes
      · rw [if_pos ht]
        have : passesFilters min_confidence class_names target_classes det = false := by
          simp [passesFilters, hs, ht]
        rw [this]
        simpa using ih
      · have hp : passesFilters min_confidence class_names target_classes det = true := by
          simp [passesFilters, hs, ht]
        rw [if_neg ht, hp]
        by_cases hm : m2p det.mask = []
        · rw [if_pos hm]
          simp [hm, ih]
        · rw [if_neg hm]
          simp [format_yolo_label_length, ih]

/-! ## Class-name resolution across collector variants (claim C6)

The Jetson collector (`src/jetson_cuda_python/src/main.py`, lines 96–102)
branches on whether `class_names` is a dict or a list; the rpi/base collectors
apply the list expression to whatever value is configured. `PyClassNames`
models the duck-typed value. -/

/-- The duck-typed `class_names` value: an ordered list or an id→name mapping. -/
inductive PyClassNames where
  | list (names : List String)
  | dict (entries : List (ℕ × String))

/-- The rpi/base expression applied to either shape. For a dict, Python's
`len` counts entries, `cls_id < len` compares the id against that count, and
`class_names[cls_id]` is a key lookup that raises `KeyError` (modelled as
`none`) for a missing key. -/
def rpi_resolve (cn : PyClassNames) (cls_id : ℕ) : Option String :=
  match cn with
  | .list names => some (rpi_class_name names cls_id)
  | .dict entries =>
    if cls_id < entries.length then entries.lookup cls_id
    else some (toString cls_id)

/-- The Jetson resolution: `class_names.get(cls_id, str(cls_id))` for a dict,
index lookup with a stringified-id fallback for a list. -/
def jetson_class_name (cn : PyClassNames) (cls_id : ℕ) : String :=
  match cn with
  | .dict entries => (entries.lookup cls_id).getD (toString cls_id)
  | .list names =>
    if h : cls_id < names.length then names.get ⟨cls_id, h⟩ else toString cls_id

/-- Modelled from the spec: the uniform resolution function — index lookup
with stringified-id fallback on an ordered list, dictionary lookup with the
same fallback on an id→name mapping. -/
def spec_resolve (cn : PyClassNames) (cls_id : ℕ) : String :=
  match cn with
  | .list names => (names[cls_id]?).getD (toString cls_id)
  | .dict entries => (entries.lookup cls_id).getD (toString cls_id)

/-! ## Collector control loop

Embedding of the per-frame control flow of `DataCollector.run`
(`src/rpi_hailo_python/src/main.py`, lines 75–127; identical structure in
`src/src/main.py`, lines 50–97) and of `DataCollectorJetson.run`
(`src/jetson_cuda_python/src/main.py`, lines 68–120). One loop iteration
snapshots the frames and a single `current_time`; every frame of the iteration
is processed against that time. The inference engine is external: its result
for each frame is an input (`none` models a falsy result). `motion` is the
value `CameraManager.check_motion(cam_id, frame)` would return for that frame
— only the Jetson loop consults it. -/

/-- One camera's snapshot within a loop iteration. -/
structure CamFrame (Frame : Type) where
  cam_id : String
  frame : Frame
  motion : Bool
  infer : Option (List Detection)

/-- One iteration of the control loop: `current_time = time.time()` plus the
snapshot of all connected cameras. -/
structure LoopIter (Frame : Type) where
  now : ℚ
  frames : List (CamFrame Frame)

/-- A successful `dataset_writer.save_sample` call made by the loop. -/
structure SaveEvent where
  cam_id : String
  time : ℚ
deriving DecidableEq

/-- Result of processing one camera frame. -/
structure FrameStep where
  last : List (String × ℚ)
  save : Option SaveEvent
  detectorInvoked : Bool

/-- The rpi/base loop body for one camera frame: throttle on
`current_time - last_capture_times.get(cam_id, 0)`, then inference, then the
detection loop; on a save, `last_capture_times[cam_id] = current_time`.
The motion field is never consulted — these loops never call `check_motion`. -/
def collectorStepFrame {Frame : Type} (interval min_confidence : ℚ)
    (class_names target_classes : List String) (m2p : Mask → List (List ℚ))
    (last : List (String × ℚ)) (now : ℚ) (cf : CamFrame Frame) : FrameStep :=
  if now - ((last.lookup cf.cam_id).getD 0) < interval then ⟨last, none, false⟩
  else
    match cf.infer with
    | none => ⟨last, none, true⟩
    | some dets =>
      if (processDetections min_confidence class_names target_classes m2p dets).1 = []
        then ⟨last, none, true⟩
      else ⟨(cf.cam_id, now) :: last, some ⟨cf.cam_id, now⟩, true⟩

/-- The Jetson loop body for one camera frame: identical, except that after the
throttle it skips the frame — before any detector call — when
`camera_manager.check_motion(cam_id, frame)` is false. -/
def jetsonStepFrame {Frame : Type} (interval min_confidence : ℚ)
    (class_names target_classes : List String) (m2p : Mask → List (List ℚ))
    (last : List (String × ℚ)) (now : ℚ) (cf : CamFrame Frame) : FrameStep :=
  if now - ((last.lookup cf.cam_id).getD 0) < interval then ⟨last, none, false⟩
  else if cf.motion = false then ⟨last, none, false⟩
  else
    match cf.infer with
    | none => ⟨last, none, true⟩
    | some dets =>
      if (processDetections min_confidence class_names target_classes m2p dets).1 = []
        then ⟨last, none, true⟩
      else ⟨(cf.cam_id, now) :: last, some ⟨cf.cam_id, now⟩, true⟩

/-- Process all frames of one iteration in order (rpi/base loop). -/
def collectorStepFrames {Frame : Type} (interval min_confidence : ℚ)
    (class_names target_classes : List String) (m2p : Mask → List (List ℚ))
    (last : List (String × ℚ)) (now : ℚ) :
    List (CamFrame Frame) → List (String × ℚ) × List SaveEvent
  | [] => (last, [])
  | cf :: cfs =>
    let r := collectorStepFrame interval min_confidence class_names target_classes
      m2p last now cf
    let rest := collectorStepFrames interval min_confidence class_names target_classes
      m2p r.last now cfs
    (rest.1, r.save.toList ++ rest.2)

/-- Run the rpi/base control loop over a list of iterations, returning the
chronological list of save events. -/
def collectorRun {Frame : Type} (interval min_confidence : ℚ)
    (class_names target_classes : List String) (m2p : Mask → List (List ℚ))
    (last : List (String × ℚ)) : List (LoopIter Frame) → List SaveEvent
  | [] => []
  | it :: its =>
    let r := collectorStepFrames interval min_confidence class_names target_classes
      m2p last it.now it.frames
    r.2 ++ collectorRun interval min_confidence class_names target_classes m2p r.1 its

/-! ## Motion gate

Embedding of `MotionDetector.detect` (`src/rpi_hailo_python/src/camera_manager.py`,
lines 19–47). `cvtColor`+`GaussianBlur` (the grayscale blurred preprocessing),
`dilate` and `findContours` are OpenCV calls passed as parameters; `absdiff`
and `threshold` are element-wise and embedded concretely. -/

/-- A grayscale image. -/
abbrev Gray := List (List ℕ)

/-- `cv2.absdiff`, element-wise absolute difference. -/
def absdiffM (a b : Gray) : Gray :=
  List.zipWith (List.zipWith (fun x y => max x y - min x y)) a b

/-- `cv2.threshold(·, t, 255, THRESH_BINARY)`. -/
def thresholdM (t : ℕ) (m : Gray) : Gray :=
  m.map (List.map (fun v => if t < v then 255 else 0))

/-- `MotionDetector.detect(frame)` on state `prev_frame`: returns the decision
and the new state. The first frame stores the reference and returns true; every
later call replaces `prev_frame` by the current preprocessed frame whatever the
decision is. -/
def motionDetect {Frame : Type} (grayBlur : Frame → Gray) (dilate2 : Gray → Gray)
    (findContours : Gray → List Contour) (contourArea : Contour → ℚ)
    (threshold : ℕ) (min_area : ℚ) (prev_frame : Option Gray) (frame : Frame) :
    Bool × Option Gray :=
  let gray := grayBlur frame
  match prev_frame with
  | none => (true, some gray)
  | some prev =>
    let frame_delta := absdiffM prev gray
    let thresh := thresholdM threshold frame_delta
    let dilated := dilate2 thresh
    let contours := findContours dilated
    (contours.any (fun c => min_area < contourArea c), some gray)

/-! ## Camera stream lifecycle

Embedding of `CameraStream.start` / `CameraStream.stop`
(`src/rpi_hailo_python/src/camera_manager.py`, lines 80–98; identical in
`src/src/camera_manager.py`, lines 23–35). `start` is guarded by the `running`
flag; `stop` clears the flag and joins the acquisition thread, so after `stop`
returns no acquisition thread is alive. -/

/-- Lifecycle state of one `CameraStream`: the `running` flag and the number of
live acquisition threads. -/
structure CameraStreamState where
  running : Bool
  aliveThreads : ℕ
deriving DecidableEq

/-- Initial state: not running, no thread. -/
def csInit : CameraStreamState := ⟨false, 0⟩

/-- `CameraStream.start`: return immediately if already running, otherwise set
the flag and spawn the acquisition thread. -/
def csStart (st : CameraStreamState) : CameraStreamState :=
  if st.running then st else ⟨true, st.aliveThreads + 1⟩

/-- `CameraStream.stop`: clear the flag and join the thread. -/
def csStop (_ : CameraStreamState) : CameraStreamState := ⟨false, 0⟩

/-- A lifecycle call. -/
inductive CsOp where
  | start
  | stop
deriving DecidableEq

/-- Apply one lifecycle call. -/
def csApply (st : CameraStreamState) : CsOp → CameraStreamState
  | .start => csStart st
  | .stop => csStop st

/-- Run a sequence of lifecycle calls from the initial state. -/
def csRun (ops : List CsOp) : CameraStreamState := ops.foldl csApply csInit

/-! ## Claim theorems -/

/-- C7: `save_sample` with an empty `annotations` list while `save_empty` is
not configured is a no-op — no image file, no label file, no catalog row, and
the store state is returned unchanged with the skipped outcome. -/
theorem claim_C7_empty_save_noop {Frame : Type} (cfg : StorageConfig)
    (st : StoreState Frame) (o : WriteOracle) (frame : Frame) (camera_id : String)
    (classes_detected : List String) (hempty : cfg.save_empty = false) :
    save_sample cfg st o frame camera_id [] classes_detected = (st, .skipped) := by
  unfold save_sample
  rw [if_pos ⟨rfl, hempty⟩]

/-- Witness for C7 at a concrete configuration and store state. -/
theorem claim_C7_empty_save_noop_witness :
    (StorageConfig.mk "data" "images" "labels" (8/10) false).save_empty = false ∧
    save_sample (StorageConfig.mk "data" "images" "labels" (8/10) false)
        (StoreState.mk [] [] []) (WriteOracle.mk 100 "abcd1234" (1/2) true true true)
        () "cam1" [] []
      = (StoreState.mk [] [] [], .skipped) :=
  ⟨rfl, claim_C7_empty_save_noop _ _ _ () "cam1" [] rfl⟩

/-- C1 (counterexample): with a failing image write (`cv2.imwrite` returning
false), a succeeding label write and a succeeding insert, `save_sample` still
inserts a catalog row and completes without reporting failure, while no image
file exists — contradicting "a catalog row is inserted only after both file
writes have returned success". -/
theorem claim_C1_counterexample :
    (save_sample (StorageConfig.mk "data" "images" "labels" (8/10) false)
        (StoreState.mk [] [] []) (WriteOracle.mk 100 "abcd1234" (1/2) false true true)
        () "cam1" ["0 0.500000 0.500000"] ["person"]).1.images = [] ∧
    (save_sample (StorageConfig.mk "data" "images" "labels" (8/10) false)
        (StoreState.mk [] [] []) (WriteOracle.mk 100 "abcd1234" (1/2) false true true)
        () "cam1" ["0 0.500000 0.500000"] ["person"]).1.rows.length = 1 ∧
    (save_sample (StorageConfig.mk "data" "images" "labels" (8/10) false)
        (StoreState.mk [] [] []) (WriteOracle.mk 100 "abcd1234" (1/2) false true true)
        () "cam1" ["0 0.500000 0.500000"] ["person"]).2 = SaveOutcome.completed :=
  ⟨rfl, rfl, rfl⟩

/-- C1 (amended): once past the empty guard, a failing label write raises out
of `save_sample` and no catalog row is inserted; a succeeding label write
always completes the call and — when the insert does not itself fail — appends
exactly one catalog row whose `objects_count` is the number of label lines.
The image write's success status is ignored and never blocks the insert, and
an insert failure is swallowed rather than reported. -/
theorem claim_C1_insert_after_label_write {Frame : Type} (cfg : StorageConfig)
    (st : StoreState Frame) (o : WriteOracle) (frame : Frame) (camera_id : String)
    (annotations classes_detected : List String)
    (hguard : ¬ (annotations = [] ∧ cfg.save_empty = false)) :
    (o.lblWriteOk = false →
      (save_sample cfg st o frame camera_id annotations classes_detected).2 = .raised ∧
      (save_sample cfg st o frame camera_id annotations classes_detected).1.rows = st.rows) ∧
    (o.lblWriteOk = true →
      (save_sample cfg st o frame camera_id annotations classes_detected).2 = .completed ∧
      (o.dbOk = true → ∃ row,
        (save_sample cfg st o frame camera_id annotations classes_detected).1.rows
          = st.rows ++ [row] ∧ row.objects_count = annotations.length) ∧
      (o.dbOk = false →
        (save_sample cfg st o frame camera_id annotations classes_detected).1.rows
          = st.rows)) := by
  constructor
  · intro hl
    unfold save_sample
    rw [if_neg hguard]
    simp only [hl, if_pos rfl]
    exact ⟨rfl, rfl⟩
  · intro hl
    unfold save_sample
    rw [if_neg hguard]
    simp only [hl]
    refine ⟨rfl, fun hd => ?_, fun hd => ?_⟩
    · simp only [hd, if_pos rfl]
      exact ⟨_, rfl, rfl⟩
    · simp only [hd]
      rfl

/-- Witness for C1 (amended) with non-empty annotations, a succeeding label
write and a succeeding insert. -/
theorem claim_C1_insert_after_label_write_witness :
    (¬ ((["0 0.500000 0.500000"] : List String) = [] ∧
        (StorageConfig.mk "data" "images" "labels" (8/10) false).save_empty = false)) ∧
    ((WriteOracle.mk 100 "abcd1234" (1/2) true true true).lblWriteOk = true →
      (save_sample (StorageConfig.mk "data" "images" "labels" (8/10) false)
          (StoreState.mk ([] : List (String × Unit)) [] [])
          (WriteOracle.mk 100 "abcd1234" (1/2) true true true)
          () "cam1" ["0 0.500000 0.500000"] ["person"]).2 = .completed ∧
      ((WriteOracle.mk 100 "abcd1234" (1/2) true true true).dbOk = true → ∃ row,
        (save_sample (StorageConfig.mk "data" "images" "labels" (8/10) false)
            (StoreState.mk ([] : List (String × Unit)) [] [])
            (WriteOracle.mk 100 "abcd1234" (1/2) true true true)
            () "cam1" ["0 0.500000 0.500000"] ["person"]).1.rows
          = [] ++ [row] ∧ row.objects_count = (["0 0.500000 0.500000"] : List String).length) ∧
      ((WriteOracle.mk 100 "abcd1234" (1/2) true true true).dbOk = false →
        (save_sample (StorageConfig.mk "data" "images" "labels" (8/10) false)
            (StoreState.mk ([] : List (String × Unit)) [] [])
            (WriteOracle.mk 100 "abcd1234" (1/2) true true true)
            () "cam1" ["0 0.500000 0.500000"] ["person"]).1.rows = [])) :=
  ⟨by simp, (claim_C1_insert_after_label_write _ _ _ () "cam1" _ _ (by simp)).2⟩

/-- C8: the frame-differencing motion gate returns true on its first call and
stores the preprocessed frame as the reference; on every later call the stored
previous frame is replaced by the current preprocessed frame regardless of the
decision returned. -/
theorem claim_C8_motion_gate_state {Frame : Type} (grayBlur : Frame → Gray)
    (dilate2 : Gray → Gray) (findContours : Gray → List Contour)
    (contourArea : Contour → ℚ) (threshold : ℕ) (min_area : ℚ) (frame : Frame) :
    motionDetect grayBlur dilate2 findContours contourArea threshold min_area
      none frame = (true, some (grayBlur frame)) ∧
    ∀ prev : Gray,
      (motionDetect grayBlur dilate2 findContours contourArea threshold min_area
        (some prev) frame).2 = some (grayBlur frame) :=
  ⟨rfl, fun _ => rfl⟩

/-- C10: `CameraStream.start` on a stream whose `running` flag is set returns
without spawning a thread (the state is unchanged), and along any sequence of
`start`/`stop` calls from the initial state at most one acquisition thread is
alive. -/
theorem claim_C10_start_idempotent :
    (∀ st : CameraStreamState, st.running = true → csStart st = st) ∧
    (∀ ops : List CsOp, (csRun ops).aliveThreads ≤ 1) := by
  constructor
  · intro st h
    unfold csStart
    rw [if_pos h]
  · intro ops
    have key : ∀ (l : List CsOp) (st : CameraStreamState),
        (st.running = true → st.aliveThreads = 1) →
        (st.running = false → st.aliveThreads = 0) →
        ((l.foldl csApply st).running = true → (l.foldl csApply st).aliveThreads = 1) ∧
        ((l.foldl csApply st).running = false → (l.foldl csApply st).aliveThreads = 0) := by
      intro l
      induction l with
      | nil => exact fun st h1 h0 => ⟨h1, h0⟩
      | cons op l ih =>
        intro st h1 h0
        rw [List.foldl_cons]
        cases op with
        | start =>
          apply ih
          · intro _
            unfold csApply csStart
            by_cases hr : st.running = true
            · rw [if_pos hr]
              exact h1 hr
            · rw [if_neg hr]
              have := h0 (by revert hr; cases st.running <;> simp)
              simp [this]
          · intro hfalse
            unfold csApply csStart at hfalse ⊢
            by_cases hr : st.running = true
            · rw [if_pos hr] at hfalse ⊢
              rw [hr] at hfalse
              cases hfalse
            · rw [if_neg hr] at hfalse
              cases hfalse
        | stop =>
          apply ih
          · intro hfalse
            cases hfalse
          · intro _
            rfl
    have h := key ops csInit (by intro h; cases h) (fun _ => rfl)
    unfold csRun
    rcases hr : (ops.foldl csApply csInit).running with _ | _
    · rw [h.2 hr]
      omega
    · rw [h.1 hr]

/-- Witness for C10: starting an already-running stream is the identity, and a
double start leaves at most one live thread. -/
theorem claim_C10_start_idempotent_witness :
    csStart ⟨true, 1⟩ = ⟨true, 1⟩ ∧ (csRun [.start, .start]).aliveThreads ≤ 1 :=
  ⟨claim_C10_start_idempotent.1 ⟨true, 1⟩ rfl,
   claim_C10_start_idempotent.2 [.start, .start]⟩

/-- C6 (counterexample): the rpi/base resolution expression applied to the
id→name mapping `{5: "person"}` with class id 5 compares 5 against the entry
count and yields the stringified id `"5"`, not the mapped name `"person"` the
uniform resolution function yields — so class ids are not resolved through one
function supporting both representations uniformly. -/
theorem claim_C6_counterexample :
    rpi_resolve (.dict [(5, "person")]) 5 ≠
      some (spec_resolve (.dict [(5, "person")]) 5) := by
  decide

/-- C6 (amended): only the Jetson collector's resolution behaves as the
uniform resolution function on both representations — index lookup with
stringified-id fallback for an ordered list, id lookup with the same fallback
for a mapping; the rpi/base collectors implement just the ordered-list form. -/
theorem claim_C6_jetson_uniform_resolution (cn : PyClassNames) (cls_id : ℕ) :
    jetson_class_name cn cls_id = spec_resolve cn cls_id := by
  cases cn with
  | dict entries => rfl
  | list names =>
    show (if h : cls_id < names.length then names.get ⟨cls_id, h⟩ else toString cls_id)
      = (names[cls_id]?).getD (toString cls_id)
    by_cases h : cls_id < names.length
    · rw [dif_pos h, List.getElem?_eq_getElem h]
      rfl
    · rw [dif_neg h, List.getElem?_eq_none (by omega)]
      rfl

/-- C2 (counterexample): in the rpi/base control loop a frame that passes the
throttle is handed to the detector even when the motion gate answers false —
the loop never consults the gate. Concrete input: empty throttle table, time
10, interval 5, `motion = false`, detector ready. -/
theorem claim_C2_counterexample :
    (collectorStepFrame 5 (6/10) [] [] (fun _ => []) [] 10
      (CamFrame.mk "cam1" () false (some []) : CamFrame Unit)).detectorInvoked = true := by
  unfold collectorStepFrame
  rw [if_neg (by norm_num)]
  rfl

/-- C2 (amended): only the Jetson collector gates inference on motion — a
throttle-passing frame whose motion check is false is skipped before any
detector call; the rpi/base collectors invoke the detector for every
throttle-passing frame, independent of the motion gate's answer. -/
theorem claim_C2_jetson_motion_gate {Frame : Type} (interval min_confidence : ℚ)
    (class_names target_classes : List String) (m2p : Mask → List (List ℚ))
    (last : List (String × ℚ)) (now : ℚ) (cf : CamFrame Frame)
    (hm : cf.motion = false) :
    (jetsonStepFrame interval min_confidence class_names target_classes m2p
      last now cf).detectorInvoked = false ∧
    (collectorStepFrame interval min_confidence class_names target_classes m2p
      last now cf).detectorInvoked
      = !decide (now - ((last.lookup cf.cam_id).getD 0) < interval) := by
  constructor
  · unfold jetsonStepFrame
    by_cases h : now - ((last.lookup cf.cam_id).getD 0) < interval
    · rw [if_pos h]
    · rw [if_neg h, if_pos hm]
  · unfold collectorStepFrame
    by_cases h : now - ((last.lookup cf.cam_id).getD 0) < interval
    · rw [if_pos h]
      simp [h]
    · rw [if_neg h]
      cases cf.infer with
      | none => simp [h]
      | some dets =>
        dsimp only
        split <;> simp [h]

/-- Witness for C2 (amended) at a concrete frame with the motion gate false. -/
theorem claim_C2_jetson_motion_gate_witness :
    ((CamFrame.mk "cam1" () false (some []) : CamFrame Unit).motion = false) ∧
    ((jetsonStepFrame 5 (6/10) [] [] (fun _ => []) [] 10
        (CamFrame.mk "cam1" () false (some []) : CamFrame Unit)).detectorInvoked = false ∧
     (collectorStepFrame 5 (6/10) [] [] (fun _ => []) [] 10
        (CamFrame.mk "cam1" () false (some []) : CamFrame Unit)).detectorInvoked
       = !decide ((10:ℚ) - ((([] : List (String × ℚ)).lookup "cam1").getD 0) < 5)) :=
  ⟨rfl, claim_C2_jetson_motion_gate 5 (6/10) [] [] (fun _ => []) [] 10
    (CamFrame.mk "cam1" () false (some [])) rfl⟩

/-- C9: the catalog row inserted by a save records `objects_count =
len(annotations)` — the number of aggregated label lines, which is the total
number of polygons over the detections passing the confidence and class
filters (one line per polygon). The final conjunct exhibits a single passing
detection whose mask yields two polygons and therefore two label lines, so the
recorded count can exceed the number of passing detections. -/
theorem claim_C9_objects_count {Frame : Type} (cfg : StorageConfig)
    (st : StoreState Frame) (o : WriteOracle) (frame : Frame) (camera_id : String)
    (min_confidence : ℚ) (class_names target_classes : List String)
    (m2p : Mask → List (List ℚ)) (dets : List Detection)
    (classes_detected : List String)
    (hlbl : o.lblWriteOk = true) (hdb : o.dbOk = true)
    (hne : (processDetections min_confidence class_names target_classes m2p dets).1 ≠ []) :
    (∃ row,
      (save_sample cfg st o frame camera_id
        (processDetections min_confidence class_names target_classes m2p dets).1
        classes_detected).1.rows = st.rows ++ [row] ∧
      row.objects_count =
        (((dets.filter (passesFilters min_confidence class_names target_classes)).map
          (fun d => (m2p d.mask).length)).sum)) ∧
    ((processDetections 0 [] [] (fun _ => [[0], [0]])
        [Detection.mk [[true]] 0 1]).1.length = 2 ∧
      ([Detection.mk [[true]] 0 1] : List Detection).filter
        (passesFilters 0 [] []) = [Detection.mk [[true]] 0 1]) := by
  constructor
  · have hguard : ¬ ((processDetections min_confidence class_names target_classes
        m2p dets).1 = [] ∧ cfg.save_empty = false) := fun h => hne h.1
    unfold save_sample
    rw [if_neg hguard]
    rw [if_neg (by simp [hlbl])]
    simp only [hdb, if_pos rfl]
    exact ⟨_, rfl, processDetections_length _ _ _ _ _⟩
  · constructor
    · rw [processDetections_length]
      rfl
    · rfl

/-- Witness for C9 with one detection whose mask decomposes into two polygons. -/
theorem claim_C9_objects_count_witness :
    ((WriteOracle.mk 100 "abcd1234" (1/2) true true true).lblWriteOk = true ∧
     (WriteOracle.mk 100 "abcd1234" (1/2) true true true).dbOk = true ∧
     (processDetections 0 [] [] (fun _ => [[0], [0]]) [Detection.mk [[true]] 0 1]).1 ≠ []) ∧
    (∃ row,
      (save_sample (StorageConfig.mk "data" "images" "labels" (8/10) false)
        (StoreState.mk ([] : List (String × Unit)) [] [])
        (WriteOracle.mk 100 "abcd1234" (1/2) true true true) () "cam1"
        (processDetections 0 [] [] (fun _ => [[0], [0]]) [Detection.mk [[true]] 0 1]).1
        ["person"]).1.rows = [] ++ [row] ∧
      row.objects_count =
        ((([Detection.mk [[true]] 0 1] : List Detection).filter
          (passesFilters 0 [] [])).map
          (fun d => ((fun _ : Mask => [[(0:ℚ)], [0]]) d.mask).length)).sum) :=
  ⟨⟨rfl, rfl, by decide⟩,
   (claim_C9_objects_count (StorageConfig.mk "data" "images" "labels" (8/10) false)
      (StoreState.mk ([] : List (String × Unit)) [] [])
      (WriteOracle.mk 100 "abcd1234" (1/2) true true true) () "cam1"
      0 [] [] (fun _ => [[0], [0]]) [Detection.mk [[true]] 0 1] ["person"]
      rfl rfl (by decide)).1⟩

/-! ### The per-camera throttle (claim C5) -/

/-- Each stored `last_capture_times` entry is no later than `t`. -/
def UpTo (t : ℚ) (last : List (String × ℚ)) : Prop :=
  ∀ cam t', last.lookup cam = some t' → t' ≤ t

/-- Every save so far is covered by the throttle table: the camera has an
entry at least as late as the save. -/
def Covers (last : List (String × ℚ)) (saves : List SaveEvent) : Prop :=
  ∀ s ∈ saves, ∃ t, last.lookup s.cam_id = some t ∧ s.time ≤ t

/-- Two save events of the same camera are at least `interval` apart. -/
def Spaced (interval : ℚ) (a b : SaveEvent) : Prop :=
  a.cam_id = b.cam_id → interval ≤ b.time - a.time

theorem lookup_cons_key (a k : String) (v : ℚ) (l : List (String × ℚ)) :
    List.lookup a ((k, v) :: l) = if a = k then some v else List.lookup a l := by
  by_cases h : a = k
  · simp [List.lookup, h]
  · have hb : (a == k) = false := beq_eq_false_iff_ne.mpr h
    simp [List.lookup, hb, h]

theorem stepFrame_inv {Frame : Type} (interval min_confidence : ℚ)
    (class_names target_classes : List String) (m2p : Mask → List (List ℚ))
    (now : ℚ) (cf : CamFrame Frame) (last : List (String × ℚ))
    (prev : List SaveEvent) (hup : UpTo now last) (hcov : Covers last prev)
    (hpw : prev.Pairwise (Spaced interval)) :
    (prev ++ (collectorStepFrame interval min_confidence class_names target_classes
      m2p last now cf).save.toList).Pairwise (Spaced interval) ∧
    Covers (collectorStepFrame interval min_confidence class_names target_classes
        m2p last now cf).last
      (prev ++ (collectorStepFrame interval min_confidence class_names target_classes
        m2p last now cf).save.toList) ∧
    UpTo now (collectorStepFrame interval min_confidence class_names target_classes
      m2p last now cf).last := by
  unfold collectorStepFrame
  by_cases hth : now - ((last.lookup cf.cam_id).getD 0) < interval
  · rw [if_pos hth]
    simpa using ⟨hpw, hcov, hup⟩
  · rw [if_neg hth]
    cases hinf : cf.infer with
    | none => simpa using ⟨hpw, hcov, hup⟩
    | some dets =>
      dsimp only
      by_cases hann : (processDetections min_confidence class_names target_classes
          m2p dets).1 = []
      · rw [if_pos hann]
        simpa using ⟨hpw, hcov, hup⟩
      · rw [if_neg hann]
        dsimp only [Option.toList]
        push_neg at hth
        refine ⟨?_, ?_, ?_⟩
        · rw [List.pairwise_append]
          refine ⟨hpw, by simp [List.Pairwise], ?_⟩
          intro s hs s' hs'
          rw [List.mem_singleton] at hs'
          subst hs'
          intro hcam
          obtain ⟨t, hl, hst⟩ := hcov s hs
          rw [hcam] at hl
          rw [hl] at hth
          simp only [Option.getD_some] at hth
          simp only
          linarith
        · intro s hs
          rcases List.mem_append.mp hs with h | h
          · obtain ⟨t, hl, hst⟩ := hcov s h
            by_cases hc : s.cam_id = cf.cam_id
            · refine ⟨now, ?_, ?_⟩
              · rw [lookup_cons_key, if_pos hc]
              · exact le_trans hst (hup _ _ hl)
            · refine ⟨t, ?_, hst⟩
              rw [lookup_cons_key, if_neg hc]
              exact hl
          · rw [List.mem_singleton] at h
            subst h
            refine ⟨now, ?_, le_refl now⟩
            simp only
            rw [lookup_cons_key, if_pos rfl]
        · intro cam t' hl
          rw [lookup_cons_key] at hl
          by_cases hc : cam = cf.cam_id
          · rw [if_pos hc] at hl
            exact le_of_eq (Option.some.inj hl).symm
          · rw [if_neg hc] at hl
            exact hup cam t' hl

theorem stepFrames_inv {Frame : Type} (interval min_confidence : ℚ)
    (class_names target_classes : List String) (m2p : Mask → List (List ℚ))
    (now : ℚ) (cfs : List (CamFrame Frame)) :
    ∀ (last : List (String × ℚ)) (prev : List SaveEvent),
      UpTo now last → Covers last prev → prev.Pairwise (Spaced interval) →
      (prev ++ (collectorStepFrames interval min_confidence class_names target_classes
        m2p last now cfs).2).Pairwise (Spaced interval) ∧
      Covers (collectorStepFrames interval min_confidence class_names target_classes
          m2p last now cfs).1
        (prev ++ (collectorStepFrames interval min_confidence class_names target_classes
          m2p last now cfs).2) ∧
      UpTo now (collectorStepFrames interval min_confidence class_names target_classes
        m2p last now cfs).1 := by
  induction cfs with
  | nil =>
    intro last prev hup hcov hpw
    unfold collectorStepFrames
    simpa using ⟨hpw, hcov, hup⟩
  | cons cf cfs ih =>
    intro last prev hup hcov hpw
    have h1 := stepFrame_inv interval min_confidence class_names target_classes
      m2p now cf last prev hup hcov hpw
    have h2 := ih (collectorStepFrame interval min_confidence class_names target_classes
        m2p last now cf).last
      (prev ++ (collectorStepFrame interval min_confidence class_names target_classes
        m2p last now cf).save.toList) h1.2.2 h1.2.1 h1.1
    unfold collectorStepFrames
    simpa [List.append_assoc] using h2

theorem run_inv {Frame : Type} (interval min_confidence : ℚ)
    (class_names target_classes : List String) (m2p : Mask → List (List ℚ))
    (iters : List (LoopIter Frame)) :
    ∀ (last : List (String × ℚ)) (prev : List SaveEvent),
      (∀ it ∈ iters, UpTo it.now last) → Covers last prev →
      prev.Pairwise (Spaced interval) →
      iters.Pairwise (fun i j => i.now ≤ j.now) →
      (prev ++ collectorRun interval min_confidence class_names target_classes
        m2p last iters).Pairwise (Spaced interval) := by
  induction iters with
  | nil =>
    intro last prev _ _ hpw _
    unfold collectorRun
    simpa using hpw
  | cons it its ih =>
    intro last prev hup hcov hpw hord
    rw [List.pairwise_cons] at hord
    have h1 := stepFrames_inv interval min_confidence class_names target_classes
      m2p it.now it.frames last prev (hup it (List.mem_cons_self it its)) hcov hpw
    have h2 := ih (collectorStepFrames interval min_confidence class_names
        target_classes m2p last it.now it.frames).1
      (prev ++ (collectorStepFrames interval min_confidence class_names
        target_classes m2p last it.now it.frames).2)
      (fun it' hit' cam t' hl => le_trans (h1.2.2 cam t' hl) (hord.1 it' hit'))
      h1.2.1 h1.1 hord.2
    unfold collectorRun
    simpa [List.append_assoc] using h2

/-- C5: the rpi/base collector throttles each camera independently —
`last_capture_times[cam]` is written only when a save happens, with that
camera's id and the iteration's `current_time` — and over any run whose
iteration times are nondecreasing, any two save events of the same camera are
at least `interval` apart. -/
theorem claim_C5_capture_interval {Frame : Type} (interval min_confidence : ℚ)
    (class_names target_classes : List String) (m2p : Mask → List (List ℚ))
    (iters : List (LoopIter Frame))
    (hord : iters.Pairwise (fun i j => i.now ≤ j.now)) :
    (∀ (last : List (String × ℚ)) (now : ℚ) (cf : CamFrame Frame),
      ((collectorStepFrame interval min_confidence class_names target_classes
          m2p last now cf).save = none →
        (collectorStepFrame interval min_confidence class_names target_classes
          m2p last now cf).last = last) ∧
      (∀ s, (collectorStepFrame interval min_confidence class_names target_classes
          m2p last now cf).save = some s →
        s.cam_id = cf.cam_id ∧ s.time = now ∧
        (collectorStepFrame interval min_confidence class_names target_classes
          m2p last now cf).last = (cf.cam_id, now) :: last)) ∧
    (collectorRun interval min_confidence class_names target_classes m2p []
      iters).Pairwise (Spaced interval) := by
  constructor
  · intro last now cf
    unfold collectorStepFrame
    by_cases hth : now - ((last.lookup cf.cam_id).getD 0) < interval
    · rw [if_pos hth]
      exact ⟨fun _ => rfl, fun s hs => by cases hs⟩
    · rw [if_neg hth]
      cases cf.infer with
      | none => exact ⟨fun _ => rfl, fun s hs => by cases hs⟩
      | some dets =>
        dsimp only
        by_cases hann : (processDetections min_confidence class_names target_classes
            m2p dets).1 = []
        · rw [if_pos hann]
          exact ⟨fun _ => rfl, fun s hs => by cases hs⟩
        · rw [if_neg hann]
          constructor
          · intro h
            cases h
          · intro s hs
            obtain rfl := Option.some.inj hs
            exact ⟨rfl, rfl, rfl⟩
  · have h := run_inv interval min_confidence class_names target_classes m2p iters
      [] [] (fun _ _ _ _ h => by cases h) (fun s hs => absurd hs (List.not_mem_nil s))
      List.Pairwise.nil hord
    simpa using h

/-- Witness for C5: two iterations at times 0 and 10 with interval 5; their
times are nondecreasing, and the state-update and spacing conclusions hold for
the resulting run. -/
theorem claim_C5_capture_interval_witness :
    (([⟨0, [CamFrame.mk "cam1" () true (some [])]⟩,
       ⟨10, [CamFrame.mk "cam1" () true (some [])]⟩] :
        List (LoopIter Unit)).Pairwise (fun i j => i.now ≤ j.now)) ∧
    (collectorRun 5 (6/10) [] [] (fun _ => [[0]]) []
      ([⟨0, [CamFrame.mk "cam1" () true (some [])]⟩,
        ⟨10, [CamFrame.mk "cam1" () true (some [])]⟩] :
        List (LoopIter Unit))).Pairwise (Spaced 5) :=
  ⟨by decide,
   (claim_C5_capture_interval 5 (6/10) [] [] (fun _ => [[0]]) _ (by decide)).2⟩

end Datacollector
